import Mathlib

/-!
Verification of the background-healthcheck coordination engine.

This file gives a shallow embedding of the heartbeat/healthcheck core:

* the file-based record store (`src/lib/fs-utils`): atomic per-file
  write/read/delete over one flat data directory, modelled as an
  association list from file name to typed record content;
* the healthcheck aggregator (`healthcheck`, `isModuleHealthy`,
  `getModuleHealthInfo`, `writeModuleHealthcheck` in the token-based
  checker source): grouping of directory entries by base name and
  `.beat`/`.check` role suffix, per-module verdicts, observation-record
  updates and orphan cleanup;
* the heartbeat emitter (`ModuleHeartbeat.signal`): the debounce
  predicate `shouldSignal`, a sequential trace model, and an event-loop
  model with an explicit in-flight write (single-flight guard);
* the long-operation helper (`ModuleHeartbeat.signalWhile`), as a
  fuel-bounded discrete-time loop recording the elapsed times at which
  `signal()` is invoked.

Wall-clock reads (`Date.now()` / `performance.now()`) are passed in as
explicit `Int` parameters; one aggregator run uses a single `now`.
Randomness (`crypto.randomBytes`) is modelled as an entropy oracle
`Nat → String` indexed by the count of accepted signals.
-/

namespace BackgroundHealthcheck

/-! ## Records (src/lib/models, as used by the token-based checker) -/

/-- Heartbeat record payload: `{ token: string }`. -/
structure ModuleHeartbeatInfo where
  token : String
deriving DecidableEq, Repr

/-- Observation record payload written by `writeModuleHealthcheck`:
`{ token: string, timestamp: number }`. -/
structure ModuleHealthcheckInfo where
  token : String
  timestamp : Int
deriving DecidableEq, Repr

/-! ## Record store (src/lib/fs-utils) -/

/-- Typed content of a persisted file: either a heartbeat record or an
observation record. -/
inductive FileContent where
  | beat (info : ModuleHeartbeatInfo)
  | check (info : ModuleHealthcheckInfo)
deriving DecidableEq, Repr

/-- The data directory: an association list from file name to content,
in directory-listing order. -/
abbrev Store := List (String × FileContent)

/-- Names returned by `listHeartbeatFiles` (every entry is a plain file). -/
def listFiles (s : Store) : List String :=
  s.map Prod.fst

/-- Raw lookup of a file's content by name. -/
def readFileRaw (s : Store) (name : String) : Option FileContent :=
  (s.find? (fun p => p.1 == name)).map Prod.snd

/-- The `readFileJson` of a heartbeat file: `undefined` when absent. -/
def readBeat (s : Store) (name : String) : Option ModuleHeartbeatInfo :=
  match readFileRaw s name with
  | some (.beat b) => some b
  | _ => none

/-- The `readFileJson` of an observation file: `undefined` when absent. -/
def readCheck (s : Store) (name : String) : Option ModuleHealthcheckInfo :=
  match readFileRaw s name with
  | some (.check c) => some c
  | _ => none

/-- The `writeFileJson` of the store: creates the file or atomically
replaces its content in place. -/
def writeFile (s : Store) (name : String) (c : FileContent) : Store :=
  if s.any (fun p => p.1 == name) then
    s.map (fun p => if p.1 == name then (name, c) else p)
  else
    s ++ [(name, c)]

/-- The `deleteFile` of the store: removes the file, a no-op when absent. -/
def deleteFile (s : Store) (name : String) : Store :=
  s.filter (fun p => p.1 != name)

/-! ## File-name parsing (path.extname / path.basename as used here) -/

/-- Splits a plain file name into `(basename, ext)` following Node's
`path.extname` on names without separators: the extension starts at the
last dot, unless that dot is the first character or there is no dot. -/
def splitExtFile (name : String) : String × String :=
  let rev := name.toList.reverse
  let afterRev := rev.takeWhile (fun ch => ch ≠ '.')
  match rev.dropWhile (fun ch => ch ≠ '.') with
  | [] => (name, "")
  | _ :: rem =>
    if rem = [] then (name, "")
    else (String.mk rem.reverse, String.mk ('.' :: afterRev.reverse))

/-! ## Module grouping (getModuleHealthInfo, first loop) -/

/-- The `ModuleFiles` accumulator of `getModuleHealthInfo`. -/
structure ModuleFiles where
  baseName : String
  heartbeatFileName : Option String := none
  healthcheckFileName : Option String := none
deriving DecidableEq, Repr

/-- Records a listed file name in a `ModuleFiles` entry according to its
extension (`.beat` / `.check`; anything else is ignored). -/
def applyExt (f : ModuleFiles) (name ext : String) : ModuleFiles :=
  if ext = ".beat" then { f with heartbeatFileName := some name }
  else if ext = ".check" then { f with healthcheckFileName := some name }
  else f

/-- One step of the grouping loop: `files.get(basename) ?? { baseName }`,
update, `files.set(basename, info)`. A JS `Map` keeps the position of an
existing key and appends new keys. -/
def insertModuleFile (fs : List ModuleFiles) (name : String) : List ModuleFiles :=
  let pair := splitExtFile name
  if fs.any (fun f => f.baseName == pair.1) then
    fs.map (fun f => if f.baseName == pair.1 then applyExt f name pair.2 else f)
  else
    fs ++ [applyExt { baseName := pair.1 } name pair.2]

/-- Groups the directory listing by base name, in insertion order. -/
def groupModuleFiles (names : List String) : List ModuleFiles :=
  names.foldl insertModuleFile []

/-! ## Per-module health (isModuleHealthy / writeModuleHealthcheck) -/

/-- The `ModuleInfo` yielded by `getModuleHealthInfo`. -/
structure ModuleInfo where
  heartbeat : Option ModuleHeartbeatInfo := none
  healthcheckFileName : String
  healthcheck : Option ModuleHealthcheckInfo := none
deriving DecidableEq, Repr

/-- The reads performed by `getModuleHealthInfo` for a module that has a
heartbeat file (`hb` is that file's name). -/
def readModuleInfo (s : Store) (f : ModuleFiles) (hb : String) : ModuleInfo :=
  { heartbeat := readBeat s hb
    healthcheckFileName := f.baseName ++ ".check"
    healthcheck :=
      match f.healthcheckFileName with
      | some cf => readCheck s cf
      | none => none }

/-- The `writeModuleHealthcheck` payload write: observation record with
the given token and the checker's current time. -/
def writeModuleHealthcheck (s : Store) (fileName token : String) (now : Int) : Store :=
  writeFile s fileName (.check { token := token, timestamp := now })

/-- The `isModuleHealthy` function: verdict for one module, together with
the store after its possible observation-record write. -/
def isModuleHealthy (s : Store) (m : ModuleInfo) (staleInterval now : Int) :
    Bool × Store :=
  match m.heartbeat with
  | none => (true, s)
  | some hb =>
    match m.healthcheck with
    | none => (true, writeModuleHealthcheck s m.healthcheckFileName hb.token now)
    | some hc =>
      if hb.token ≠ hc.token then
        (true, writeModuleHealthcheck s m.healthcheckFileName hb.token now)
      else if now - hc.timestamp < staleInterval then
        (true, s)
      else
        (false, s)

/-! ## The healthcheck run (healthcheck + getModuleHealthInfo, fused in
the order the generator and its consumer actually interleave: each
module's reads happen before that module's write; orphan deletions
happen when the generator reaches the orphan) -/

/-- One loop iteration of `healthcheck` over a `ModuleFiles` entry,
threading the exit-status accumulator and the store. -/
def healthcheckModuleStep (staleInterval now : Int) (acc : Int × Store)
    (f : ModuleFiles) : Int × Store :=
  match f.heartbeatFileName with
  | some hb =>
    let m := readModuleInfo acc.2 f hb
    let r := isModuleHealthy acc.2 m staleInterval now
    (if r.1 then acc.1 else 1, r.2)
  | none =>
    match f.healthcheckFileName with
    | some cf => (acc.1, deleteFile acc.2 cf)
    | none => acc

/-- The `healthcheck(staleInterval)` entry point (default 10000): exit
status and the store after all observation writes and orphan deletions. -/
def healthcheck (s : Store) (staleInterval now : Int) : Int × Store :=
  (groupModuleFiles (listFiles s)).foldl (healthcheckModuleStep staleInterval now) (0, s)

/-- Companion recursion producing the per-module verdict list alongside
the final store; used to state aggregate properties of the fold. -/
def runModules (staleInterval now : Int) : Store → List ModuleFiles → List Bool × Store
  | s, [] => ([], s)
  | s, f :: fs =>
    match f.heartbeatFileName with
    | some hb =>
      let m := readModuleInfo s f hb
      let r := isModuleHealthy s m staleInterval now
      let rest := runModules staleInterval now r.2 fs
      (r.1 :: rest.1, rest.2)
    | none =>
      match f.healthcheckFileName with
      | some cf => runModules staleInterval now (deleteFile s cf) fs
      | none => runModules staleInterval now s fs

/-! ## Fallible directory listing (listHeartbeatFiles)

`listHeartbeatFiles` calls `fs.promises.readdir(dataDirPath)` with no
ENOENT handling (unlike `readFileJson`, which maps ENOENT to
`undefined`), and the data directory is created only by
`writeFileJson`'s `mkdir` — so while no module has ever signaled the
directory does not exist and the listing rejects. -/

/-- Store error raised by the directory listing. -/
inductive FsError where
  | enoent
deriving DecidableEq, Repr

/-- The persistent filesystem state: whether the data directory has ever
been created, and its contents. -/
structure DataDir where
  dirExists : Bool
  files : Store
deriving DecidableEq, Repr

/-- The `listHeartbeatFiles` of fs-utils: rejects with ENOENT when the
data directory was never created, otherwise lists the plain files. -/
def listHeartbeatFiles (d : DataDir) : Except FsError (List String) :=
  if d.dirExists then .ok (listFiles d.files) else .error .enoent

/-- The `healthcheck` entry point including the fallible directory
listing: a listing failure propagates to the caller. -/
def healthcheckE (d : DataDir) (staleInterval now : Int) :
    Except FsError (Int × Store) :=
  match listHeartbeatFiles d with
  | .error e => .error e
  | .ok names =>
    .ok ((groupModuleFiles names).foldl
      (healthcheckModuleStep staleInterval now) (0, d.files))

/-! ## Heartbeat emitter (ModuleHeartbeat.signal) -/

/-- JS truthiness of the `_interval` field: `undefined` and `0` are
falsy (the setter rejects negative and NaN values, so no other falsy
value can occur). -/
def intervalFalsy : Option Int → Bool
  | none => true
  | some i => i == 0

/-- The `shouldSignal` condition of `ModuleHeartbeat.signal`:
`!this._interval || lastTs == null || lastTs + interval <= now`. -/
def shouldSignal (interval lastTs : Option Int) (now : Int) : Bool :=
  if intervalFalsy interval then true
  else if lastTs.isNone then true
  else decide (lastTs.getD 0 + interval.getD 0 ≤ now)

/-- One sequential (non-overlapping) `signal()` call at clock `now`:
whether a heartbeat write is performed, and the debounce clock
afterwards (`_lastHeartbeatTimestamp` is set to the write's completion
time; in this sequential model the write completes at `now`). -/
def seqSignal (interval lastTs : Option Int) (now : Int) : Bool × Option Int :=
  if shouldSignal interval lastTs now then (true, some now) else (false, lastTs)

/-- A sequence of sequential `signal()` calls at the given clock times:
the list of per-call write decisions. -/
def runSignals (interval : Option Int) : Option Int → List Int → List Bool
  | _, [] => []
  | lastTs, t :: ts =>
    let r := seqSignal interval lastTs t
    r.1 :: runSignals interval r.2 ts

/-! ## Event-loop model of concurrent signal() calls

Each `signal()` call runs its decision logic synchronously up to its
first suspension point, so on one event loop a call is an atomic `call`
event; the in-flight write (`_currentHeartbeat`) settles later as an
atomic `settle` event. `inflight` holds the ids of all callers awaiting
the current write (the owner and every joiner). -/

inductive HbEvent where
  | call (id : Nat) (now : Int)
  | settle (ok : Bool) (now : Int)
deriving DecidableEq, Repr

structure HbState where
  interval : Option Int
  lastTs : Option Int
  inflight : Option (List Nat)
  resolved : List (Nat × Bool)
  writesStarted : Nat
deriving DecidableEq, Repr

/-- One event-loop step of `ModuleHeartbeat.signal`:
a `call` either returns at once (debounced), joins the in-flight write,
or starts a new write; a `settle` resolves every awaiting caller, clears
`_currentHeartbeat`, and on success advances the debounce clock
(`_lastHeartbeatTimestamp` is assigned inside `_writeHeartbeat` only
after the file write succeeded). -/
def hbStep (st : HbState) : HbEvent → HbState
  | .call id now =>
    if shouldSignal st.interval st.lastTs now then
      match st.inflight with
      | some ids => { st with inflight := some (ids ++ [id]) }
      | none => { st with inflight := some [id], writesStarted := st.writesStarted + 1 }
    else
      { st with resolved := st.resolved ++ [(id, true)] }
  | .settle ok now =>
    match st.inflight with
    | some ids =>
      { st with
          inflight := none
          lastTs := if ok then some now else st.lastTs
          resolved := st.resolved ++ ids.map (fun i => (i, ok)) }
    | none => st

def hbRun (st : HbState) (evs : List HbEvent) : HbState :=
  evs.foldl hbStep st

/-- Builds `call` events with consecutive ids starting at `k`. -/
def mkCalls : Nat → List Int → List HbEvent
  | _, [] => []
  | k, t :: ts => HbEvent.call k t :: mkCalls (k + 1) ts

/-! ## Token generation (_writeHeartbeat, token variant)

`_writeHeartbeat` persists `{ token: crypto.randomBytes(16).toString('hex') }`.
The random generator is modelled as an entropy oracle `Nat → String`
giving the token of the k-th started write. -/

/-- Payload written by the k-th accepted signal. -/
def heartbeatPayload (entropy : Nat → String) (k : Nat) : ModuleHeartbeatInfo :=
  { token := entropy k }

/-- The heartbeat records written by a sequence of sequential `signal()`
calls at the given clock times, consuming the entropy oracle in order. -/
def runWrites (interval : Option Int) (entropy : Nat → String) :
    Option Int → Nat → List Int → List ModuleHeartbeatInfo
  | _, _, [] => []
  | lastTs, k, t :: ts =>
    if shouldSignal interval lastTs t then
      heartbeatPayload entropy k :: runWrites interval entropy (some t) (k + 1) ts
    else
      runWrites interval entropy lastTs k ts

/-- Number of accepted signals in a sequential call sequence. -/
def acceptCount (interval : Option Int) : Option Int → List Int → Nat
  | _, [] => 0
  | lastTs, t :: ts =>
    if shouldSignal interval lastTs t then
      acceptCount interval (some t) ts + 1
    else
      acceptCount interval lastTs ts

/-! ## Long-operation helper (ModuleHeartbeat.signalWhile)

Discrete-time model: the supplied operation settles at elapsed time `ta`
with outcome `outcome`; timers fire exactly after their delay; `signal()`
calls are instantaneous and never fail. The loop is bounded by `fuel`
iterations (the code's loop can spin when `interval = 0`); `none` means
the fuel ran out. The result is the list of elapsed times at which
`signal()` is invoked inside the loop, and the value `signalWhile`
settles with. Ties in `Promise.race` go to the timer. -/

def signalWhileLoop {α ε : Type} (interval timeout : Option Int) (ta : Int)
    (outcome : Except ε α) : Nat → Int → Option (List Int × Except ε α)
  | 0, _ => none
  | fuel + 1, t =>
    let waitTime := interval.getD 1000
    match timeout with
    | some tm =>
      if tm - t ≤ 0 then
        -- reached timeout: `return await action`, no further signals
        some ([], outcome)
      else
        let w := min waitTime (tm - t)
        if ta < t + w then
          -- the action settles first
          match outcome with
          | .error e => some ([], .error e)     -- the race rejects before the signal
          | .ok a => some ([ta], .ok a)         -- `await this.signal()` then return
        else
          -- the timer fires: `await this.signal()`, re-check, loop
          match signalWhileLoop interval timeout ta outcome fuel (t + w) with
          | some r => some ((t + w) :: r.1, r.2)
          | none => none
    | none =>
      if ta < t + waitTime then
        match outcome with
        | .error e => some ([], .error e)
        | .ok a => some ([ta], .ok a)
      else
        match signalWhileLoop interval none ta outcome fuel (t + waitTime) with
        | some r => some ((t + waitTime) :: r.1, r.2)
        | none => none

/-- `signalWhile(action, timeout)`: an immediate `signal()` at elapsed
time 0, then the loop. -/
def signalWhileRun {α ε : Type} (interval timeout : Option Int) (ta : Int)
    (outcome : Except ε α) (fuel : Nat) : Option (List Int × Except ε α) :=
  match signalWhileLoop interval timeout ta outcome fuel 0 with
  | some r => some (0 :: r.1, r.2)
  | none => none

/-! ## Helper lemmas: emitter -/

lemma shouldSignal_some_some (i l now : Int) :
    shouldSignal (some i) (some l) now = (i == 0 || decide (l + i ≤ now)) := by
  by_cases h : i = 0 <;> simp [shouldSignal, intervalFalsy, h]

lemma shouldSignal_of_le (i l now : Int) (h : l + i ≤ now) :
    shouldSignal (some i) (some l) now = true := by
  rw [shouldSignal_some_some]
  simp [h]

lemma shouldSignal_mono (interval lastTs : Option Int) (t u : Int)
    (h : shouldSignal interval lastTs t = true) (hle : t ≤ u) :
    shouldSignal interval lastTs u = true := by
  cases interval with
  | none => simp [shouldSignal, intervalFalsy]
  | some i =>
    cases lastTs with
    | none => simp [shouldSignal]
    | some l =>
      rw [shouldSignal_some_some] at h ⊢
      rcases Bool.or_eq_true_iff.mp h with h1 | h2
      · simp [h1]
      · have : l + i ≤ u := le_trans (of_decide_eq_true h2) hle
        simp [this]

lemma runSignals_chain (i : Int) :
    ∀ (ts : List Int) (l : Int), List.Chain (fun a b => a + i ≤ b) l ts →
      runSignals (some i) (some l) ts = ts.map (fun _ => true) := by
  intro ts
  induction ts with
  | nil => intro l _; rfl
  | cons t ts ih =>
    intro l hchain
    rcases hchain with _ | ⟨hgap, htail⟩
    have hs : shouldSignal (some i) (some l) t = true := shouldSignal_of_le i l t hgap
    simp only [runSignals, seqSignal, hs, if_true, List.map_cons]
    exact congrArg (List.cons true) (ih t htail)

/-! ## Helper lemmas: token stream -/

lemma runWrites_eq_range (interval : Option Int) (entropy : Nat → String) :
    ∀ (ts : List Int) (lastTs : Option Int) (k : Nat),
      runWrites interval entropy lastTs k ts =
        (List.range' k (acceptCount interval lastTs ts)).map (heartbeatPayload entropy) := by
  intro ts
  induction ts with
  | nil => intro lastTs k; rfl
  | cons t ts ih =>
    intro lastTs k
    by_cases hs : shouldSignal interval lastTs t = true
    · simp only [runWrites, acceptCount, hs, if_true, ih, List.range'_succ, List.map_cons]
    · simp [runWrites, acceptCount, hs, ih]

lemma chain_ne_range_map (entropy : Nat → String)
    (h : ∀ k, entropy k ≠ entropy (k + 1)) :
    ∀ (n k : Nat), List.Chain' (fun a b => a.token ≠ b.token)
      ((List.range' k n).map (heartbeatPayload entropy)) := by
  intro n
  induction n with
  | zero => intro k; simp
  | succ m ih =>
    intro k
    rw [List.range'_succ, List.map_cons]
    cases m with
    | zero => simp
    | succ m2 =>
      rw [List.range'_succ, List.map_cons]
      exact List.Chain'.cons (h k) (by
        have := ih (k + 1)
        rwa [List.range'_succ, List.map_cons] at this)

/-! ## Claim theorems: emitter -/

/-- C4: a sequential `signal()` call performs no write exactly when the
interval is set and non-zero, a last-accepted timestamp exists, and the
time since the last accepted signal is strictly less than the interval;
consequently calls whose consecutive gaps are at least the interval each
produce a write. -/
theorem signal_debounce_correct :
    (∀ (interval lastTs : Option Int) (now : Int),
      (seqSignal interval lastTs now).1 = false ↔
        ∃ i l : Int, interval = some i ∧ i ≠ 0 ∧ lastTs = some l ∧ now - l < i)
    ∧ (∀ (i : Int) (ts : List Int),
      List.Chain' (fun a b => a + i ≤ b) ts →
        runSignals (some i) none ts = ts.map (fun _ => true)) := by
  constructor
  · intro interval lastTs now
    constructor
    · intro h
      cases interval with
      | none => simp [seqSignal, shouldSignal, intervalFalsy] at h
      | some i =>
        cases lastTs with
        | none => simp [seqSignal, shouldSignal, intervalFalsy] at h
        | some l =>
          refine ⟨i, l, rfl, ?_, rfl, ?_⟩ <;>
            · simp only [seqSignal, shouldSignal_some_some] at h
              by_cases hi : i = 0 <;> by_cases hl : l + i ≤ now <;>
                simp [hi, hl] at h ⊢ <;> omega
    · rintro ⟨i, l, hi, hine, hl, hlt⟩
      subst hi; subst hl
      have hns : ¬ (l + i ≤ now) := by omega
      simp [seqSignal, shouldSignal_some_some, hine, hns]
  · intro i ts hchain
    cases ts with
    | nil => rfl
    | cons t ts =>
      have hs : shouldSignal (some i) none t = true := by simp [shouldSignal]
      simp only [runSignals, seqSignal, hs, if_true, List.map_cons]
      exact congrArg (List.cons true) (runSignals_chain i ts t hchain)

/-- Witness for C4: three calls separated by exactly the interval all
produce writes. -/
theorem signal_debounce_correct_witness :
    runSignals (some 5) none [0, 5, 10] = [true, true, true] := by
  have h := signal_debounce_correct.2 5 [0, 5, 10] (by norm_num [List.chain'_cons])
  simpa using h

/-- C7: modelling `crypto.randomBytes` as an entropy oracle, the records
written by a sequence of `signal()` calls are exactly the heartbeat
payloads of the successive entropy values — they are determined by the
entropy stream alone, not by the call clock — and whenever consecutive
entropy values differ, consecutive written records differ. -/
theorem heartbeat_token_fresh (interval : Option Int) (entropy : Nat → String)
    (ts : List Int) :
    runWrites interval entropy none 0 ts =
      (List.range (acceptCount interval none ts)).map (heartbeatPayload entropy)
    ∧ ((∀ k, entropy k ≠ entropy (k + 1)) →
      List.Chain' (fun a b => a.token ≠ b.token) (runWrites interval entropy none 0 ts)) := by
  constructor
  · rw [runWrites_eq_range, List.range_eq_range']
  · intro h
    rw [runWrites_eq_range]
    exact chain_ne_range_map entropy h _ _

/-- Entropy stream used by the C7 witness: the k-th token is a run of k
copies of one character, so all values are pairwise distinct. -/
def unaryEntropy (k : Nat) : String :=
  String.mk (List.replicate k 'a')

lemma unaryEntropy_succ_ne (k : Nat) : unaryEntropy k ≠ unaryEntropy (k + 1) := by
  intro h
  have hlen := congrArg String.length h
  simp [unaryEntropy, String.length] at hlen

/-- Witness for C7: three always-accepted signals yield three pairwise
consecutive distinct records. -/
theorem heartbeat_token_fresh_witness :
    runWrites none unaryEntropy none 0 [0, 1, 2] =
      (List.range (acceptCount none none [0, 1, 2])).map (heartbeatPayload unaryEntropy)
    ∧ List.Chain' (fun a b => a.token ≠ b.token)
        (runWrites none unaryEntropy none 0 [0, 1, 2]) := by
  have h := heartbeat_token_fresh none unaryEntropy [0, 1, 2]
  exact ⟨h.1, h.2 unaryEntropy_succ_ne⟩

/-! ## Helper lemmas: event-loop model -/

lemma hbRun_append (st : HbState) (evs1 evs2 : List HbEvent) :
    hbRun st (evs1 ++ evs2) = hbRun (hbRun st evs1) evs2 :=
  List.foldl_append hbStep st evs1 evs2

lemma hbRun_calls_join (interval l : Option Int) (r : List (Nat × Bool)) (w : Nat) :
    ∀ (ts : List Int) (k : Nat) (ids : List Nat),
      (∀ t ∈ ts, shouldSignal interval l t = true) →
      hbRun ⟨interval, l, some ids, r, w⟩ (mkCalls k ts) =
        ⟨interval, l, some (ids ++ List.range' k ts.length), r, w⟩ := by
  intro ts
  induction ts with
  | nil => intro k ids _; simp [hbRun, mkCalls]
  | cons t ts ih =>
    intro k ids hall
    have hs : shouldSignal interval l t = true := hall t (List.mem_cons_self t ts)
    have htail : ∀ u ∈ ts, shouldSignal interval l u = true :=
      fun u hu => hall u (List.mem_cons_of_mem t hu)
    simp only [mkCalls, hbRun, List.foldl_cons, hbStep, hs, if_true]
    have := ih (k + 1) (ids ++ [k]) htail
    simp only [hbRun] at this
    rw [this]
    simp [List.range'_succ, List.length_cons]

/-! ## Claim theorems: event-loop model -/

/-- C5: from an idle emitter, a burst of concurrent `signal()` calls
(the first of which passes the debounce check, the rest issued no
earlier and before the write settles) starts exactly one underlying
write; every call awaits that same write, and when it settles all of
them resolve together with its outcome, the debounce clock advancing
only on success. -/
theorem signal_single_flight (interval lastTs : Option Int) (t0 tEnd : Int)
    (rest : List Int) (ok : Bool)
    (h0 : shouldSignal interval lastTs t0 = true)
    (hmono : ∀ t ∈ rest, t0 ≤ t) :
    hbRun ⟨interval, lastTs, none, [], 0⟩
        (mkCalls 0 (t0 :: rest) ++ [HbEvent.settle ok tEnd]) =
      ⟨interval, if ok then some tEnd else lastTs, none,
        (List.range (rest.length + 1)).map (fun k => (k, ok)), 1⟩ := by
  rw [hbRun_append]
  have hstep0 : hbStep ⟨interval, lastTs, none, [], 0⟩ (HbEvent.call 0 t0) =
      ⟨interval, lastTs, some [0], [], 1⟩ := by
    simp [hbStep, h0]
  have hall : ∀ t ∈ rest, shouldSignal interval lastTs t = true :=
    fun t ht => shouldSignal_mono interval lastTs t0 t h0 (hmono t ht)
  have hcalls : hbRun ⟨interval, lastTs, none, [], 0⟩ (mkCalls 0 (t0 :: rest)) =
      ⟨interval, lastTs, some (List.range' 0 (rest.length + 1)), [], 1⟩ := by
    simp only [mkCalls, hbRun, List.foldl_cons]
    rw [show (hbStep ⟨interval, lastTs, none, [], 0⟩ (HbEvent.call 0 t0)) =
        ⟨interval, lastTs, some [0], [], 1⟩ from hstep0]
    have := hbRun_calls_join interval lastTs [] 1 rest 1 [0] hall
    simp only [hbRun] at this
    rw [this, List.range'_succ]
    rfl
  rw [hcalls]
  simp [hbRun, hbStep, List.range_eq_range']

/-- Witness for C5: three concurrent calls, one write, joint success. -/
theorem signal_single_flight_witness :
    hbRun ⟨some 5, none, none, [], 0⟩
        (mkCalls 0 [0, 0, 0] ++ [HbEvent.settle true 2]) =
      ⟨some 5, some 2, none, [(0, true), (1, true), (2, true)], 1⟩ := by
  have h := signal_single_flight (some 5) none 0 2 [0, 0] true (by decide)
    (by intro t ht; fin_cases ht <;> decide)
  simpa using h

/-- C6: when the in-flight write fails, every caller awaiting it is
resolved with the failure, the debounce clock is left unchanged, and the
immediately following `signal()` call starts a new write regardless of
the configured interval. -/
theorem signal_failure_retry (interval lastTs : Option Int) (t0 t1 t2 : Int)
    (h0 : shouldSignal interval lastTs t0 = true)
    (h2 : t0 ≤ t2) :
    hbRun ⟨interval, lastTs, none, [], 0⟩
        [HbEvent.call 0 t0, HbEvent.call 1 t0, HbEvent.settle false t1] =
      ⟨interval, lastTs, none, [(0, false), (1, false)], 1⟩
    ∧ (hbRun ⟨interval, lastTs, none, [], 0⟩
        [HbEvent.call 0 t0, HbEvent.call 1 t0, HbEvent.settle false t1,
          HbEvent.call 2 t2]).writesStarted = 2 := by
  have hmid : hbRun ⟨interval, lastTs, none, [], 0⟩
      [HbEvent.call 0 t0, HbEvent.call 1 t0, HbEvent.settle false t1] =
      ⟨interval, lastTs, none, [(0, false), (1, false)], 1⟩ := by
    simp [hbRun, hbStep, h0]
  refine ⟨hmid, ?_⟩
  have hsplit : ([HbEvent.call 0 t0, HbEvent.call 1 t0, HbEvent.settle false t1,
      HbEvent.call 2 t2] : List HbEvent) =
      [HbEvent.call 0 t0, HbEvent.call 1 t0, HbEvent.settle false t1] ++
        [HbEvent.call 2 t2] := rfl
  rw [hsplit, hbRun_append, hmid]
  have hs2 : shouldSignal interval lastTs t2 = true :=
    shouldSignal_mono interval lastTs t0 t2 h0 h2
  simp [hbRun, hbStep, hs2]

/-- Witness for C6: a failed write resolves both callers with the
failure, keeps the debounce clock unset, and the next call writes. -/
theorem signal_failure_retry_witness :
    hbRun ⟨some 5, none, none, [], 0⟩
        [HbEvent.call 0 0, HbEvent.call 1 0, HbEvent.settle false 2] =
      ⟨some 5, none, none, [(0, false), (1, false)], 1⟩
    ∧ (hbRun ⟨some 5, none, none, [], 0⟩
        [HbEvent.call 0 0, HbEvent.call 1 0, HbEvent.settle false 2,
          HbEvent.call 2 1]).writesStarted = 2 :=
  signal_failure_retry (some 5) none 0 2 1 (by decide) (by decide)

/-! ## Helper lemmas: aggregator -/

lemma healthcheck_foldl_eq (si now : Int) :
    ∀ (fs : List ModuleFiles) (r : Int) (s : Store),
      fs.foldl (healthcheckModuleStep si now) (r, s) =
        (if false ∈ (runModules si now s fs).1 then 1 else r,
          (runModules si now s fs).2) := by
  intro fs
  induction fs with
  | nil => intro r s; simp [runModules]
  | cons f fs ih =>
    intro r s
    cases hhb : f.heartbeatFileName with
    | some hb =>
      simp only [List.foldl_cons, healthcheckModuleStep, runModules, hhb]
      rw [ih]
      by_cases hv : (isModuleHealthy s (readModuleInfo s f hb) si now).1 = true
      · simp [hv]
      · simp only [Bool.not_eq_true] at hv
        simp [hv]
    | none =>
      cases hcf : f.healthcheckFileName with
      | some cf => simp only [List.foldl_cons, healthcheckModuleStep, runModules, hhb, hcf]; exact ih r _
      | none => simp only [List.foldl_cons, healthcheckModuleStep, runModules, hhb, hcf]; exact ih r s

lemma isModuleHealthy_snd_indep (s : Store) (m : ModuleInfo) (si si' now : Int) :
    (isModuleHealthy s m si now).2 = (isModuleHealthy s m si' now).2 := by
  cases hhb : m.heartbeat with
  | none => simp [isModuleHealthy, hhb]
  | some hb =>
    cases hhc : m.healthcheck with
    | none => simp [isModuleHealthy, hhb, hhc]
    | some hc =>
      simp only [isModuleHealthy, hhb, hhc]
      by_cases ht : hb.token = hc.token
      · simp only [ht, ne_eq, not_true_eq_false, if_false]
        by_cases h1 : now - hc.timestamp < si <;> by_cases h2 : now - hc.timestamp < si' <;>
          simp [h1, h2]
      · simp [ht]

lemma runModules_indep (now si si' : Int) :
    ∀ (fs : List ModuleFiles) (s : Store),
      (runModules si now s fs).2 = (runModules si' now s fs).2
      ∧ (runModules si now s fs).1.length = (runModules si' now s fs).1.length := by
  intro fs
  induction fs with
  | nil => intro s; simp [runModules]
  | cons f fs ih =>
    intro s
    cases hhb : f.heartbeatFileName with
    | some hb =>
      simp only [runModules, hhb]
      have hsnd := isModuleHealthy_snd_indep s (readModuleInfo s f hb) si si' now
      rw [hsnd]
      rcases ih (isModuleHealthy s (readModuleInfo s f hb) si' now).2 with ⟨h1, h2⟩
      exact ⟨h1, by simp [h2]⟩
    | none =>
      cases hcf : f.healthcheckFileName with
      | some cf => simp only [runModules, hhb, hcf]; exact ih _
      | none => simp only [runModules, hhb, hcf]; exact ih s

lemma runModules_length (si now : Int) :
    ∀ (fs : List ModuleFiles) (s : Store),
      (runModules si now s fs).1.length =
        (fs.filter (fun f => f.heartbeatFileName.isSome)).length := by
  intro fs
  induction fs with
  | nil => intro s; simp [runModules]
  | cons f fs ih =>
    intro s
    cases hhb : f.heartbeatFileName with
    | some hb => simp [runModules, List.filter_cons, hhb, ih]
    | none =>
      cases hcf : f.healthcheckFileName with
      | some cf => simp [runModules, List.filter_cons, hhb, hcf, ih]
      | none => simp [runModules, List.filter_cons, hhb, hcf, ih]

/-! ## Claim theorems: aggregator -/

/-- C1: for a module whose heartbeat token equals the observed token,
the verdict is healthy exactly when the elapsed time since the
observation record's stored timestamp is strictly below `staleInterval`;
in particular an elapsed time of `staleInterval - 1` is healthy and any
elapsed time of at least `staleInterval` is unhealthy. -/
theorem healthcheck_stale_boundary :
    (∀ (s : Store) (m : ModuleInfo) (b : ModuleHeartbeatInfo)
        (c : ModuleHealthcheckInfo) (si now : Int),
      m.heartbeat = some b → m.healthcheck = some c → b.token = c.token →
        ((isModuleHealthy s m si now).1 = true ↔ now - c.timestamp < si))
    ∧ (∀ (s : Store) (m : ModuleInfo) (b : ModuleHeartbeatInfo)
        (c : ModuleHealthcheckInfo) (si : Int),
      m.heartbeat = some b → m.healthcheck = some c → b.token = c.token →
        (isModuleHealthy s m si (c.timestamp + (si - 1))).1 = true)
    ∧ (∀ (s : Store) (m : ModuleInfo) (b : ModuleHeartbeatInfo)
        (c : ModuleHealthcheckInfo) (si d : Int),
      m.heartbeat = some b → m.healthcheck = some c → b.token = c.token →
        si ≤ d → (isModuleHealthy s m si (c.timestamp + d)).1 = false) := by
  have hmain : ∀ (s : Store) (m : ModuleInfo) (b : ModuleHeartbeatInfo)
      (c : ModuleHealthcheckInfo) (si now : Int),
      m.heartbeat = some b → m.healthcheck = some c → b.token = c.token →
        ((isModuleHealthy s m si now).1 = true ↔ now - c.timestamp < si) := by
    intro s m b c si now hb hc htok
    simp only [isModuleHealthy, hb, hc, htok, ne_eq, not_true_eq_false, if_false]
    by_cases hst : now - c.timestamp < si <;> simp [hst]
  refine ⟨hmain, ?_, ?_⟩
  · intro s m b c si hb hc htok
    rw [hmain s m b c si _ hb hc htok]
    omega
  · intro s m b c si d hb hc htok hd
    have := hmain s m b c si (c.timestamp + d) hb hc htok
    rcases h : (isModuleHealthy s m si (c.timestamp + d)).1 with _ | _
    · rfl
    · rw [this] at h
      omega

/-- Witness for C1: same token, stale interval 10000: elapsed 9999 is
healthy, elapsed 10000 is unhealthy. -/
theorem healthcheck_stale_boundary_witness :
    (isModuleHealthy [] ⟨some ⟨"t"⟩, "m.check", some ⟨"t", 0⟩⟩ 10000 9999).1 = true
    ∧ (isModuleHealthy [] ⟨some ⟨"t"⟩, "m.check", some ⟨"t", 0⟩⟩ 10000 10000).1 = false := by
  constructor
  · have h := healthcheck_stale_boundary.2.1 [] ⟨some ⟨"t"⟩, "m.check", some ⟨"t", 0⟩⟩
      ⟨"t"⟩ ⟨"t", 0⟩ 10000 rfl rfl rfl
    simpa using h
  · have h := healthcheck_stale_boundary.2.2 [] ⟨some ⟨"t"⟩, "m.check", some ⟨"t", 0⟩⟩
      ⟨"t"⟩ ⟨"t", 0⟩ 10000 10000 rfl rfl rfl (by omega)
    simpa using h

/-- C2: a module with a heartbeat record and either no observation
record or an observation record holding a different token is healthy for
every staleInterval and clock, and its observation record is created or
overwritten with the current heartbeat token and the current time. -/
theorem healthcheck_new_token_healthy :
    ∀ (s : Store) (m : ModuleInfo) (b : ModuleHeartbeatInfo) (si now : Int),
      m.heartbeat = some b →
      (m.healthcheck = none ∨
        ∃ c : ModuleHealthcheckInfo, m.healthcheck = some c ∧ c.token ≠ b.token) →
      isModuleHealthy s m si now =
        (true, writeFile s m.healthcheckFileName (.check ⟨b.token, now⟩)) := by
  intro s m b si now hb hcase
  rcases hcase with hnone | ⟨c, hc, hne⟩
  · simp [isModuleHealthy, hb, hnone, writeModuleHealthcheck]
  · have hne2 : b.token ≠ c.token := fun h => hne h.symm
    simp [isModuleHealthy, hb, hc, hne2, writeModuleHealthcheck]

/-- Witness for C2: a first observation and a token change both report
healthy and write the fresh observation record. -/
theorem healthcheck_new_token_healthy_witness :
    isModuleHealthy [("m.beat", .beat ⟨"x"⟩)] ⟨some ⟨"x"⟩, "m.check", none⟩ 10 7 =
      (true, [("m.beat", .beat ⟨"x"⟩), ("m.check", .check ⟨"x", 7⟩)])
    ∧ isModuleHealthy [("m.check", .check ⟨"old", 0⟩)]
        ⟨some ⟨"x"⟩, "m.check", some ⟨"old", 0⟩⟩ 10 7 =
      (true, [("m.check", .check ⟨"x", 7⟩)]) := by
  constructor
  · have h := healthcheck_new_token_healthy [("m.beat", .beat ⟨"x"⟩)]
      ⟨some ⟨"x"⟩, "m.check", none⟩ ⟨"x"⟩ 10 7 rfl (Or.inl rfl)
    rw [h]
    simp [writeFile]
  · have h := healthcheck_new_token_healthy [("m.check", .check ⟨"old", 0⟩)]
      ⟨some ⟨"x"⟩, "m.check", some ⟨"old", 0⟩⟩ ⟨"x"⟩ 10 7 rfl
      (Or.inr ⟨⟨"old", 0⟩, rfl, by simp⟩)
    rw [h]
    simp [writeFile]

/-- C3 counterexample: when zero modules have ever signaled, the data
directory was never created, `listHeartbeatFiles`'s readdir rejects with
ENOENT, and `healthcheck` propagates the failure instead of returning
exit status 0. -/
theorem healthcheck_zero_modules_ce :
    healthcheckE ⟨false, []⟩ 10000 0 = Except.error FsError.enoent
    ∧ healthcheckE ⟨false, []⟩ 10000 0 ≠ Except.ok (0, []) := by
  refine ⟨rfl, ?_⟩
  intro h
  simp [healthcheckE, listHeartbeatFiles] at h

/-- C3 (amended): when the data directory exists the run succeeds, with
exit status 1 exactly when some module with a heartbeat file gets an
unhealthy verdict and 0 exactly otherwise — an existing empty directory
yields (0, []) — but when the directory has never been created (zero
modules ever signaled) the ENOENT listing failure propagates instead of
a 0 exit status. -/
theorem healthcheck_aggregate_amended :
    ∀ (d : DataDir) (si now : Int),
      (d.dirExists = true →
        healthcheckE d si now = Except.ok (healthcheck d.files si now)
        ∧ ((healthcheck d.files si now).1 = 1 ↔
          false ∈ (runModules si now d.files (groupModuleFiles (listFiles d.files))).1)
        ∧ ((healthcheck d.files si now).1 = 0 ↔
          false ∉ (runModules si now d.files (groupModuleFiles (listFiles d.files))).1)
        ∧ healthcheckE ⟨true, []⟩ si now = Except.ok (0, []))
      ∧ (d.dirExists = false →
        healthcheckE d si now = Except.error FsError.enoent) := by
  intro d si now
  constructor
  · intro hdir
    have hfold := healthcheck_foldl_eq si now (groupModuleFiles (listFiles d.files)) 0 d.files
    refine ⟨?_, ?_, ?_, rfl⟩
    · simp [healthcheckE, listHeartbeatFiles, hdir, healthcheck]
    · rw [healthcheck, hfold]
      by_cases h : false ∈ (runModules si now d.files (groupModuleFiles (listFiles d.files))).1 <;>
        simp [h]
    · rw [healthcheck, hfold]
      by_cases h : false ∈ (runModules si now d.files (groupModuleFiles (listFiles d.files))).1 <;>
        simp [h]
  · intro hdir
    simp [healthcheckE, listHeartbeatFiles, hdir]

/-- Witness for the amended C3: an existing empty directory returns exit
status 0, a never-created directory propagates ENOENT. -/
theorem healthcheck_aggregate_amended_witness :
    healthcheckE ⟨true, []⟩ 10000 0 = Except.ok (0, [])
    ∧ healthcheckE ⟨false, [("m.beat", .beat ⟨"t"⟩)]⟩ 10000 0 =
      Except.error FsError.enoent := by
  constructor
  · exact (((healthcheck_aggregate_amended ⟨true, []⟩ 10000 0).1 rfl).2.2).2
  · exact (healthcheck_aggregate_amended ⟨false, [("m.beat", .beat ⟨"t"⟩)]⟩ 10000 0).2 rfl

/-- C10: the store effects of a healthcheck run (observation writes and
orphan deletions) do not depend on `staleInterval`, hence not on any
module's health verdict — an unhealthy module never short-circuits the
processing of later modules — and every module with a heartbeat file
receives a verdict. -/
theorem healthcheck_no_short_circuit :
    (∀ (s : Store) (now si si' : Int),
      (healthcheck s si now).2 = (healthcheck s si' now).2)
    ∧ ∀ (s : Store) (si now : Int),
      (runModules si now s (groupModuleFiles (listFiles s))).1.length =
        ((groupModuleFiles (listFiles s)).filter
          (fun f => f.heartbeatFileName.isSome)).length := by
  constructor
  · intro s now si si'
    rw [healthcheck, healthcheck, healthcheck_foldl_eq, healthcheck_foldl_eq]
    exact (runModules_indep now si si' (groupModuleFiles (listFiles s)) s).1
  · intro s si now
    exact runModules_length si now (groupModuleFiles (listFiles s)) s

/-! ## Helper lemmas: orphan cleanup -/

lemma splitExt_append_check (base : String) (hbase : base ≠ "") :
    splitExtFile (base ++ ".check") = (base, ".check") := by
  obtain ⟨l⟩ := base
  have hl : l ≠ [] := by
    intro h
    subst h
    exact hbase rfl
  have hdata : (String.mk l ++ ".check").toList = l ++ ('.' :: ['c', 'h', 'e', 'c', 'k']) := rfl
  have htake : List.takeWhile (fun ch => ch ≠ '.')
      ((('.' : Char) :: ['c', 'h', 'e', 'c', 'k']).reverse ++ l.reverse) =
      ['k', 'c', 'e', 'h', 'c'] := rfl
  have hdrop : List.dropWhile (fun ch => ch ≠ '.')
      ((('.' : Char) :: ['c', 'h', 'e', 'c', 'k']).reverse ++ l.reverse) =
      '.' :: l.reverse := rfl
  unfold splitExtFile
  rw [hdata, List.reverse_append]
  dsimp only
  rw [htake, hdrop]
  dsimp only
  rw [if_neg (by simp [hl])]
  rw [List.reverse_reverse]
  rfl

lemma applyExt_baseName (f : ModuleFiles) (name ext : String) :
    (applyExt f name ext).baseName = f.baseName := by
  simp only [applyExt]
  split <;> try split
  all_goals rfl

lemma insertModuleFile_bases (acc : List ModuleFiles) (n : String) :
    ∀ g ∈ insertModuleFile acc n,
      g.baseName ∈ acc.map ModuleFiles.baseName ∨ g.baseName = (splitExtFile n).1 := by
  intro g hg
  simp only [insertModuleFile] at hg
  split at hg
  · rcases List.mem_map.mp hg with ⟨f, hf, hfe⟩
    subst hfe
    split
    · left
      rw [applyExt_baseName]
      exact List.mem_map.mpr ⟨f, hf, rfl⟩
    · exact Or.inl (List.mem_map.mpr ⟨f, hf, rfl⟩)
  · rcases List.mem_append.mp hg with h | h
    · exact Or.inl (List.mem_map.mpr ⟨g, h, rfl⟩)
    · rw [List.mem_singleton.mp h, applyExt_baseName]
      exact Or.inr rfl

lemma groupModuleFiles_bases :
    ∀ (ns : List String) (acc : List ModuleFiles) (f : ModuleFiles),
      f ∈ List.foldl insertModuleFile acc ns →
      f.baseName ∈ acc.map ModuleFiles.baseName ∨
        ∃ n ∈ ns, f.baseName = (splitExtFile n).1 := by
  intro ns
  induction ns with
  | nil => intro acc f hf; exact Or.inl (List.mem_map.mpr ⟨f, hf, rfl⟩)
  | cons n ns ih =>
    intro acc f hf
    rcases ih (insertModuleFile acc n) f hf with hin | ⟨m, hm, hme⟩
    · rcases List.mem_map.mp hin with ⟨g, hg, hge⟩
      rcases insertModuleFile_bases acc n g hg with h1 | h2
      · exact Or.inl (hge ▸ h1)
      · exact Or.inr ⟨n, List.mem_cons_self n ns, hge ▸ h2⟩
    · exact Or.inr ⟨m, List.mem_cons_of_mem n hm, hme⟩

lemma foldl_insert_fresh :
    ∀ (ns : List String) (e : ModuleFiles) (acc : List ModuleFiles),
      (∀ n ∈ ns, (splitExtFile n).1 ≠ e.baseName) →
      List.foldl insertModuleFile (e :: acc) ns =
        e :: List.foldl insertModuleFile acc ns := by
  intro ns
  induction ns with
  | nil => intro e acc _; rfl
  | cons n ns ih =>
    intro e acc hfresh
    have hne : (splitExtFile n).1 ≠ e.baseName :=
      hfresh n (List.mem_cons_self n ns)
    have hbe : (e.baseName == (splitExtFile n).1) = false :=
      beq_false_of_ne (fun h => hne h.symm)
    have hstep : insertModuleFile (e :: acc) n = e :: insertModuleFile acc n := by
      simp only [insertModuleFile, List.any_cons, hbe, Bool.false_or, List.map_cons,
        if_neg (by simp [hbe] : ¬ (e.baseName == (splitExtFile n).1) = true)]
      split
      · rfl
      · rfl
    rw [List.foldl_cons, hstep,
      ih e (insertModuleFile acc n) fun m hm => hfresh m (List.mem_cons_of_mem n hm)]
    rfl

lemma groupModuleFiles_orphan_cons (base : String) (ns : List String)
    (hbase : base ≠ "") (hfresh : ∀ n ∈ ns, (splitExtFile n).1 ≠ base) :
    groupModuleFiles ((base ++ ".check") :: ns) =
      ⟨base, none, some (base ++ ".check")⟩ :: groupModuleFiles ns := by
  have hsplit := splitExt_append_check base hbase
  have hfirst : insertModuleFile [] (base ++ ".check") =
      [⟨base, none, some (base ++ ".check")⟩] := by
    simp [insertModuleFile, hsplit, applyExt]
  unfold groupModuleFiles
  rw [List.foldl_cons, hfirst]
  exact foldl_insert_fresh ns ⟨base, none, some (base ++ ".check")⟩ [] hfresh

lemma deleteFile_cons_self (s : Store) (name : String) (c : FileContent)
    (h : name ∉ listFiles s) : deleteFile ((name, c) :: s) name = s := by
  simp only [deleteFile, List.filter_cons]
  rw [if_neg (by simp)]
  exact List.filter_eq_self.mpr fun p hp => by
    have : p.1 ≠ name := fun he => h (he ▸ List.mem_map.mpr ⟨p, hp, rfl⟩)
    simpa using this

lemma orphan_not_mem (base : String) (ns : List String) (hbase : base ≠ "")
    (hfresh : ∀ n ∈ ns, (splitExtFile n).1 ≠ base) :
    (base ++ ".check") ∉ ns := by
  intro hmem
  have := hfresh (base ++ ".check") hmem
  rw [splitExt_append_check base hbase] at this
  exact this rfl

lemma listFiles_writeFile (s : Store) (n : String) (c : FileContent) (x : String)
    (hx : x ∈ listFiles (writeFile s n c)) : x ∈ listFiles s ∨ x = n := by
  simp only [writeFile] at hx
  split at hx
  · rcases List.mem_map.mp hx with ⟨p, hp, hpe⟩
    rcases List.mem_map.mp hp with ⟨q, hq, hqe⟩
    subst hqe hpe
    by_cases hb : (q.1 == n) = true
    · right; simp [hb]
    · left
      rw [if_neg hb]
      exact List.mem_map.mpr ⟨q, hq, rfl⟩
  · simp only [listFiles, List.map_append, List.mem_append] at hx
    rcases hx with h | h
    · exact Or.inl h
    · right; simpa using h

lemma listFiles_deleteFile (s : Store) (n x : String)
    (hx : x ∈ listFiles (deleteFile s n)) : x ∈ listFiles s := by
  rcases List.mem_map.mp hx with ⟨p, hp, hpe⟩
  exact hpe ▸ List.mem_map.mpr ⟨p, List.mem_of_mem_filter hp, rfl⟩

lemma isModuleHealthy_snd_cases (s : Store) (m : ModuleInfo) (si now : Int) :
    (isModuleHealthy s m si now).2 = s ∨
      ∃ payload : FileContent,
        (isModuleHealthy s m si now).2 = writeFile s m.healthcheckFileName payload := by
  cases hhb : m.heartbeat with
  | none => left; simp [isModuleHealthy, hhb]
  | some hb =>
    cases hhc : m.healthcheck with
    | none =>
      right
      exact ⟨.check ⟨hb.token, now⟩, by simp [isModuleHealthy, hhb, hhc, writeModuleHealthcheck]⟩
    | some hc =>
      by_cases ht : hb.token = hc.token
      · left
        simp only [isModuleHealthy, hhb, hhc, ht, ne_eq, not_true_eq_false, if_false]
        split <;> rfl
      · right
        exact ⟨.check ⟨hb.token, now⟩, by simp [isModuleHealthy, hhb, hhc, ht, writeModuleHealthcheck]⟩

lemma runModules_listFiles (si now : Int) :
    ∀ (fs : List ModuleFiles) (s : Store) (x : String),
      x ∈ listFiles (runModules si now s fs).2 →
      x ∈ listFiles s ∨ ∃ f ∈ fs, x = f.baseName ++ ".check" := by
  intro fs
  induction fs with
  | nil => intro s x hx; exact Or.inl hx
  | cons f fs ih =>
    intro s x hx
    cases hhb : f.heartbeatFileName with
    | some hb =>
      simp only [runModules, hhb] at hx
      rcases ih _ x hx with hmem | ⟨g, hg, hge⟩
      · rcases isModuleHealthy_snd_cases s (readModuleInfo s f hb) si now with hid | ⟨payload, hw⟩
        · rw [hid] at hmem
          exact Or.inl hmem
        · rw [hw] at hmem
          rcases listFiles_writeFile s _ payload x hmem with h1 | h2
          · exact Or.inl h1
          · exact Or.inr ⟨f, List.mem_cons_self f fs, h2⟩
      · exact Or.inr ⟨g, List.mem_cons_of_mem f hg, hge⟩
    | none =>
      cases hcf : f.healthcheckFileName with
      | some cf =>
        simp only [runModules, hhb, hcf] at hx
        rcases ih _ x hx with hmem | ⟨g, hg, hge⟩
        · exact Or.inl (listFiles_deleteFile s cf x hmem)
        · exact Or.inr ⟨g, List.mem_cons_of_mem f hg, hge⟩
      | none =>
        simp only [runModules, hhb, hcf] at hx
        rcases ih _ x hx with hmem | ⟨g, hg, hge⟩
        · exact Or.inl hmem
        · exact Or.inr ⟨g, List.mem_cons_of_mem f hg, hge⟩

lemma append_check_inj (a b : String) (h : a ++ ".check" = b ++ ".check") : a = b := by
  have hd : a.data ++ (".check" : String).data = b.data ++ (".check" : String).data := by
    rw [← String.data_append, ← String.data_append, h]
  have hlen : a.data.length = b.data.length := by
    have := congrArg List.length hd
    simp only [List.length_append] at this
    omega
  exact String.ext (List.append_inj hd hlen).1

/-! ## Claim theorem: orphan cleanup -/

/-- C8: an observation record whose base name has no heartbeat file (and
no other file) is deleted by the healthcheck run, and its presence
changes neither the exit status nor the final store; in particular the
orphaned file is absent from the final store. -/
theorem healthcheck_orphan_cleanup (s : Store) (base : String)
    (c : ModuleHealthcheckInfo) (si now : Int) (hbase : base ≠ "")
    (hfresh : ∀ n ∈ listFiles s, (splitExtFile n).1 ≠ base) :
    healthcheck ((base ++ ".check", .check c) :: s) si now = healthcheck s si now
    ∧ (base ++ ".check") ∉
        listFiles (healthcheck ((base ++ ".check", .check c) :: s) si now).2 := by
  have hnot : (base ++ ".check") ∉ listFiles s :=
    orphan_not_mem base (listFiles s) hbase hfresh
  have hnames : listFiles ((base ++ ".check", FileContent.check c) :: s) =
      (base ++ ".check") :: listFiles s := rfl
  have hgroup := groupModuleFiles_orphan_cons base (listFiles s) hbase hfresh
  have heq : healthcheck ((base ++ ".check", FileContent.check c) :: s) si now =
      healthcheck s si now := by
    unfold healthcheck
    rw [hnames, hgroup, List.foldl_cons]
    have hstep : healthcheckModuleStep si now (0, (base ++ ".check", FileContent.check c) :: s)
        ⟨base, none, some (base ++ ".check")⟩ = (0, s) := by
      simp only [healthcheckModuleStep]
      rw [deleteFile_cons_self s (base ++ ".check") (FileContent.check c) hnot]
    rw [hstep]
  refine ⟨heq, ?_⟩
  rw [heq]
  intro hmem
  rw [healthcheck, healthcheck_foldl_eq] at hmem
  rcases runModules_listFiles si now (groupModuleFiles (listFiles s)) s
      (base ++ ".check") hmem with h1 | ⟨f, hf, hfe⟩
  · exact hnot h1
  · have hbeq : base = f.baseName := append_check_inj base f.baseName hfe
    rcases groupModuleFiles_bases (listFiles s) [] f hf with h0 | ⟨n, hn, hne⟩
    · simp at h0
    · exact hfresh n hn (by rw [← hne, ← hbeq])

/-- Witness for C8: a store with one live module plus an orphaned
observation file: same run result, orphan gone. -/
theorem healthcheck_orphan_cleanup_witness :
    healthcheck (("orph" ++ ".check", .check ⟨"x", 0⟩) :: [("m.beat", .beat ⟨"t"⟩)]) 10 5 =
      healthcheck [("m.beat", .beat ⟨"t"⟩)] 10 5
    ∧ ("orph" ++ ".check") ∉ listFiles
        (healthcheck (("orph" ++ ".check", .check ⟨"x", 0⟩) ::
          [("m.beat", .beat ⟨"t"⟩)]) 10 5).2 :=
  healthcheck_orphan_cleanup [("m.beat", .beat ⟨"t"⟩)] "orph" ⟨"x", 0⟩ 10 5
    (by decide)
    (by
      intro n hn
      simp only [listFiles, List.map_cons, List.map_nil, List.mem_singleton] at hn
      subst hn
      decide)

/-! ## Helper lemmas: signalWhile -/

lemma signalWhileLoop_timeout_bound {α ε : Type} (interval : Option Int)
    (tm ta : Int) (outcome : Except ε α) :
    ∀ (fuel : Nat) (t : Int) (sigs : List Int) (res : Except ε α),
      signalWhileLoop interval (some tm) ta outcome fuel t = some (sigs, res) →
      (∀ x ∈ sigs, x ≤ tm) ∧ res = outcome := by
  intro fuel
  induction fuel with
  | zero => intro t sigs res h; simp [signalWhileLoop] at h
  | succ fuel ih =>
    intro t sigs res h
    simp only [signalWhileLoop] at h
    by_cases hstop : tm - t ≤ 0
    · rw [if_pos hstop] at h
      simp only [Option.some.injEq, Prod.mk.injEq] at h
      obtain ⟨hs, hr⟩ := h
      subst hs
      subst hr
      simp
    · rw [if_neg hstop] at h
      set w := min (interval.getD 1000) (tm - t) with hw
      have hwle : t + w ≤ tm := by
        have : w ≤ tm - t := min_le_right _ _
        omega
      by_cases hrace : ta < t + w
      · rw [if_pos hrace] at h
        cases outcome with
        | error e =>
          simp only [Option.some.injEq, Prod.mk.injEq] at h
          obtain ⟨hs, hr⟩ := h
          subst hs
          subst hr
          simp
        | ok a =>
          simp only [Option.some.injEq, Prod.mk.injEq] at h
          obtain ⟨hs, hr⟩ := h
          subst hs
          subst hr
          refine ⟨?_, rfl⟩
          intro x hx
          rw [List.mem_singleton.mp hx]
          omega
      · rw [if_neg hrace] at h
        cases hrec : signalWhileLoop interval (some tm) ta outcome fuel (t + w) with
        | none => rw [hrec] at h; simp at h
        | some r =>
          rw [hrec] at h
          simp only [Option.some.injEq, Prod.mk.injEq] at h
          obtain ⟨hs, hr⟩ := h
          subst hs
          subst hr
          rcases ih (t + w) r.1 r.2 (by rw [hrec]) with ⟨hall, hres⟩
          refine ⟨?_, hres⟩
          intro x hx
          rcases List.mem_cons.mp hx with h1 | h2
          · omega
          · exact hall x h2

lemma signalWhileLoop_result {α ε : Type} (interval timeout : Option Int)
    (ta : Int) (outcome : Except ε α) :
    ∀ (fuel : Nat) (t : Int) (sigs : List Int) (res : Except ε α),
      signalWhileLoop interval timeout ta outcome fuel t = some (sigs, res) →
      res = outcome := by
  intro fuel
  induction fuel with
  | zero => intro t sigs res h; simp [signalWhileLoop] at h
  | succ fuel ih =>
    intro t sigs res h
    simp only [signalWhileLoop] at h
    cases timeout with
    | some tm =>
      exact (signalWhileLoop_timeout_bound interval tm ta outcome (fuel + 1) t sigs res
        (by simpa [signalWhileLoop] using h)).2
    | none =>
      by_cases hrace : ta < t + interval.getD 1000
      · rw [if_pos hrace] at h
        cases outcome with
        | error e =>
          simp only [Option.some.injEq, Prod.mk.injEq] at h
          exact h.2.symm
        | ok a =>
          simp only [Option.some.injEq, Prod.mk.injEq] at h
          exact h.2.symm
      · rw [if_neg hrace] at h
        cases hrec : signalWhileLoop interval none ta outcome fuel
            (t + interval.getD 1000) with
        | none => rw [hrec] at h; simp at h
        | some r =>
          rw [hrec] at h
          simp only [Option.some.injEq, Prod.mk.injEq] at h
          have := ih (t + interval.getD 1000) r.1 r.2 (by rw [hrec])
          rw [← h.2]
          exact this

/-! ## Claim theorems: signalWhile -/

/-- C9 counterexample: with the debounce interval unset (every
`signal()` call writes) and `timeoutMs = 500`, an operation still
pending at elapsed time 2000 makes `signalWhile` issue signals at
elapsed times 0 and 500: the timer armed before the deadline fires at
the very moment the timeout has elapsed and still triggers a heartbeat
write — so it is not the case that every write happens strictly before
`timeoutMs` has elapsed while the operation is incomplete. -/
theorem signalWhile_timeout_boundary_ce :
    @signalWhileRun Nat Unit none (some 500) 2000 (Except.ok 0) 5 =
      some ([0, 500], Except.ok 0)
    ∧ runSignals none none [0, 500] = [true, true]
    ∧ ¬ ((500 : Int) < 500)
    ∧ (500 : Int) ≤ 2000 := by
  refine ⟨?_, by decide, by decide, by decide⟩
  rfl

/-- C9 (amended): the timeout is only checked at the top of each loop
iteration, so every `signal()` call of `signalWhile` happens at an
elapsed time of at most `timeoutMs` — at most one of them at the
deadline instant itself, none strictly after — and, whatever the
timeout, a terminating run settles with exactly the operation's outcome
(its value on success, its failure unchanged). -/
theorem signalWhile_timeout_and_result :
    (∀ (α ε : Type) (interval timeout : Option Int) (ta : Int)
        (outcome : Except ε α) (fuel : Nat) (sigs : List Int) (res : Except ε α),
      signalWhileRun interval timeout ta outcome fuel = some (sigs, res) →
        res = outcome)
    ∧ (∀ (α ε : Type) (interval : Option Int) (tm ta : Int)
        (outcome : Except ε α) (fuel : Nat) (sigs : List Int) (res : Except ε α),
      0 ≤ tm →
      signalWhileRun interval (some tm) ta outcome fuel = some (sigs, res) →
        ∀ x ∈ sigs, x ≤ tm) := by
  constructor
  · intro α ε interval timeout ta outcome fuel sigs res h
    simp only [signalWhileRun] at h
    cases hrec : signalWhileLoop interval timeout ta outcome fuel 0 with
    | none => rw [hrec] at h; simp at h
    | some r =>
      rw [hrec] at h
      simp only [Option.some.injEq, Prod.mk.injEq] at h
      have := signalWhileLoop_result interval timeout ta outcome fuel 0 r.1 r.2
        (by rw [hrec])
      rw [← h.2]
      exact this
  · intro α ε interval tm ta outcome fuel sigs res htm h
    simp only [signalWhileRun] at h
    cases hrec : signalWhileLoop interval (some tm) ta outcome fuel 0 with
    | none => rw [hrec] at h; simp at h
    | some r =>
      rw [hrec] at h
      simp only [Option.some.injEq, Prod.mk.injEq] at h
      have hall := (signalWhileLoop_timeout_bound interval tm ta outcome fuel 0 r.1 r.2
        (by rw [hrec])).1
      rw [← h.1]
      intro x hx
      rcases List.mem_cons.mp hx with h1 | h2
      · omega
      · exact hall x h2

/-- Witness for the amended C9: interval 200, timeout 500, operation
pending past the horizon: all signals at elapsed times ≤ 500 and the run
settles with the operation's value. -/
theorem signalWhile_timeout_and_result_witness :
    ((Except.ok 3 : Except Unit Nat) = Except.ok 3)
    ∧ (∀ x ∈ [(0 : Int), 200, 400, 500], x ≤ 500) := by
  constructor
  · exact signalWhile_timeout_and_result.1 Nat Unit (some 200) (some 500) 2000
      (Except.ok 3) 9 [0, 200, 400, 500] (Except.ok 3) rfl
  · exact signalWhile_timeout_and_result.2 Nat Unit (some 200) 500 2000
      (Except.ok 3) 9 [0, 200, 400, 500] (Except.ok 3) (by decide) rfl

end BackgroundHealthcheck
